import Mathlib

/-!
Shallow embedding of the Snake game (`src/main.rs`).

The game logic is pure apart from three effects, which are made explicit:
* randomness (`GamePoint::random`, used by `Food::mov`) is passed in as an
  oracle argument constrained to the range `gen_range(0..GAME_SIZE)` produces;
* the wall clock (`Instant::elapsed`) is passed in as a rational `elapsed`
  argument, and the `state.time = Instant::now()` reset is reported as a
  `timeReset` flag;
* drawing calls are dropped, except that the choice of screen drawn by `main`
  (running screen vs. the GAME OVER screen with its score) is returned as a
  `FrameOutput` value.

`usize` coordinates become `Nat` (with Rust's guarded `-` becoming truncated
`Nat` subtraction, shown harmless under the same guards), `VecDeque` becomes
`List` with the front of the deque at the head of the list, and `Duration`
becomes `ℚ` (milliseconds) with `mul_f32` modelled as exact multiplication.
`Snake::mov` takes `&mut self` and returns `Option<bool>`; it is embedded as a
function returning the updated snake and food together with the
`Option Bool` signal, wrapped in an outer `Option` that is `none` exactly when
the Rust code would panic (`get_head().unwrap()` on an empty body).
-/

def SQUARE_SIZE : Nat := 20

def GAME_SIZE : Nat := 20

def PERIOD_CHANGE : ℚ := 95 / 100

def INITIAL_PERIOD : ℚ := 300

structure GamePoint where
  x : Nat
  y : Nat
deriving DecidableEq

inductive Direction where
  | Up
  | Down
  | Left
  | Right
deriving DecidableEq

/-- `GamePoint::matches`: `self.x == other.x && self.y == other.y`. -/
def GamePoint.matches (p other : GamePoint) : Bool :=
  p.x == other.x && p.y == other.y

/-- `GamePoint::to_pixel` (render-units mapping; no claim depends on it). -/
def GamePoint.to_pixel (p : GamePoint) : Nat × Nat :=
  (p.x * SQUARE_SIZE, p.y * SQUARE_SIZE)

/-- The coordinate update performed by the `match self.direction` block of
`Snake::mov` (lines 97-102): one step in the heading, with `usize` subtraction
embedded as `Nat` subtraction. -/
def GamePoint.translate (p : GamePoint) : Direction → GamePoint
  | Direction.Up => { p with y := p.y - 1 }
  | Direction.Down => { p with y := p.y + 1 }
  | Direction.Left => { p with x := p.x - 1 }
  | Direction.Right => { p with x := p.x + 1 }

/-- The same coordinate update over `ℤ`, with true (non-truncating)
subtraction; used to state that the guarded `Nat` subtraction never
underflows. -/
def translateZ (p : GamePoint) : Direction → ℤ × ℤ
  | Direction.Up => ((p.x : ℤ), (p.y : ℤ) - 1)
  | Direction.Down => ((p.x : ℤ), (p.y : ℤ) + 1)
  | Direction.Left => ((p.x : ℤ) - 1, (p.y : ℤ))
  | Direction.Right => ((p.x : ℤ) + 1, (p.y : ℤ))

/-- Both coordinates lie in `[0, GAME_SIZE)`, the range of
`GamePoint::random` (`rng.gen_range(0..GAME_SIZE)` on each axis). -/
def GamePoint.inBounds (p : GamePoint) : Prop :=
  p.x < GAME_SIZE ∧ p.y < GAME_SIZE

instance (p : GamePoint) : Decidable p.inBounds := by
  unfold GamePoint.inBounds; infer_instance

structure Food where
  position : GamePoint
deriving DecidableEq

structure Snake where
  body : List GamePoint
  direction : Direction
deriving DecidableEq

/-- `Snake::is_on_food`, evaluated at a given head. -/
def isOnFood (head : GamePoint) (food : Food) : Bool :=
  head.matches food.position

/-- Body of `Snake::mov` (lines 82-121), split out over the snake's fields.
`nf` is the oracle value `GamePoint::random()` would return inside
`Food::mov` (line 63); it is only used when the food is eaten.
The outer `Option` is `none` exactly when `self.body.front().unwrap()`
would panic (empty body). -/
def movImpl (body : List GamePoint) (dir : Direction) (food : Food)
    (nf : GamePoint) : Option (Snake × Food × Option Bool) :=
  match body with
  | [] => none
  | hd :: _ =>
    if dir = Direction.Up ∧ hd.y = 0 then
      some (⟨body, dir⟩, food, none)
    else if dir = Direction.Down ∧ hd.y = GAME_SIZE - 1 then
      some (⟨body, dir⟩, food, none)
    else if dir = Direction.Left ∧ hd.x = 0 then
      some (⟨body, dir⟩, food, none)
    else if dir = Direction.Right ∧ hd.x = GAME_SIZE - 1 then
      some (⟨body, dir⟩, food, none)
    else
      let new_head := hd.translate dir
      let collisions := body.filter (fun x => x.matches new_head)
      if collisions.isEmpty = false then
        some (⟨body, dir⟩, food, none)
      else
        let body1 := new_head :: body
        let eaten := isOnFood new_head food
        if eaten = true then
          some (⟨body1, dir⟩, ⟨nf⟩, some true)
        else
          some (⟨body1.dropLast, dir⟩, food, some false)

/-- `Snake::mov`. -/
def Snake.mov (s : Snake) (food : Food) (nf : GamePoint) :
    Option (Snake × Food × Option Bool) :=
  movImpl s.body s.direction food nf

structure GameState where
  snake : Snake
  food : Food
  period : ℚ
  finished : Bool
deriving DecidableEq

/-- Which direction keys `is_key_down` reports as held this frame. -/
structure Inputs where
  down : Bool
  up : Bool
  left : Bool
  right : Bool
deriving DecidableEq

def opposite : Direction → Direction
  | Direction.Up => Direction.Down
  | Direction.Down => Direction.Up
  | Direction.Left => Direction.Right
  | Direction.Right => Direction.Left

def held (inp : Inputs) : Direction → Bool
  | Direction.Up => inp.up
  | Direction.Down => inp.down
  | Direction.Left => inp.left
  | Direction.Right => inp.right

/-- The `if / else if` chain over the four arrow keys in `run_loop`
(lines 199-207). -/
def inputStep (inp : Inputs) (dir : Direction) : Direction :=
  if inp.down = true ∧ dir ≠ Direction.Up then Direction.Down
  else if inp.up = true ∧ dir ≠ Direction.Down then Direction.Up
  else if inp.left = true ∧ dir ≠ Direction.Right then Direction.Left
  else if inp.right = true ∧ dir ≠ Direction.Left then Direction.Right
  else dir

/-- Spec-side restatement of the input step (for the refinement claim C5):
the first held direction in the fixed precedence order Down, Up, Left, Right
that is not the exact opposite of the current heading; otherwise the heading
is unchanged. -/
def inputSpec (inp : Inputs) (dir : Direction) : Direction :=
  match [Direction.Down, Direction.Up, Direction.Left,
      Direction.Right].find? (fun d => held inp d && decide (d ≠ opposite dir)) with
  | some d => d
  | none => dir

/-- Applying the input chain to the game state (only the heading changes). -/
def applyInput (g : GameState) (inp : Inputs) : GameState :=
  { g with snake := { g.snake with direction := inputStep inp g.snake.direction } }

structure LoopResult where
  state : GameState
  timeReset : Bool
deriving DecidableEq

/-- `run_loop` (lines 183-225): tick when `state.time.elapsed() > state.period`
(resetting the clock, reported as `timeReset`), shrink the period on `eaten`,
set `finished` and return early on a `None` tick, then (when not returning
early) process the arrow keys. `elapsed` is the value of
`state.time.elapsed()` this frame, in milliseconds; `nf` is the random oracle
for a potential food relocation. The outer `Option` is `none` exactly when
`Snake::mov` would panic. -/
def run_loop (g : GameState) (elapsed : ℚ) (inp : Inputs) (nf : GamePoint) :
    Option LoopResult :=
  if elapsed > g.period then
    match g.snake.mov g.food nf with
    | none => none
    | some (snake1, food1, none) =>
      some ⟨{ g with snake := snake1, food := food1, finished := true }, true⟩
    | some (snake1, food1, some eaten) =>
      let g1 : GameState :=
        { g with
          snake := snake1
          food := food1
          period := if eaten = true then g.period * PERIOD_CHANGE else g.period }
      some ⟨applyInput g1 inp, true⟩
  else
    some ⟨applyInput g inp, false⟩

/-- What `main` draws on one iteration of its `while` loop. -/
inductive FrameOutput where
  | gameOverScreen (score : Nat)
  | runningScreen (score : Nat)
deriving DecidableEq

/-- One iteration of the `while !rl.window_should_close()` loop in `main`
(lines 164-180): call `run_loop` only while not finished, then draw the
GAME OVER screen (with score = current body length) whenever `finished`
holds afterwards. -/
def frame (g : GameState) (elapsed : ℚ) (inp : Inputs) (nf : GamePoint) :
    Option (GameState × FrameOutput) :=
  if g.finished = true then
    some (g, FrameOutput.gameOverScreen g.snake.body.length)
  else
    match run_loop g elapsed inp nf with
    | none => none
    | some r =>
      if r.state.finished = true then
        some (r.state, FrameOutput.gameOverScreen r.state.snake.body.length)
      else
        some (r.state, FrameOutput.runningScreen r.state.snake.body.length)

/-- The initial `GameState` built in `main` (lines 156-162), with the two
`GamePoint::random()` results (`Snake::new`'s single segment and
`Food::new`'s position) passed in as oracles. -/
def initState (p f : GamePoint) : GameState :=
  { snake := { body := [p], direction := Direction.Up }
    food := ⟨f⟩
    period := INITIAL_PERIOD
    finished := false }

/-- The states the game can actually be in: the initial state (for random
points in the `gen_range(0..GAME_SIZE)` range), closed under whole frames
with arbitrary elapsed times, key states, and in-range relocation oracles. -/
inductive Reachable : GameState → Prop
  | init (p f : GamePoint) (hp : p.inBounds) (hf : f.inBounds) :
      Reachable (initState p f)
  | step (g : GameState) (elapsed : ℚ) (inp : Inputs) (nf : GamePoint)
      (hnf : nf.inBounds) (g' : GameState) (out : FrameOutput)
      (hg : Reachable g) (hf : frame g elapsed inp nf = some (g', out)) :
      Reachable g'

/-- The head-at-boundary condition of the four early `return None` guards in
`Snake::mov` (lines 85-96). -/
def wallHit (hd : GamePoint) (dir : Direction) : Prop :=
  (dir = Direction.Up ∧ hd.y = 0) ∨
  (dir = Direction.Down ∧ hd.y = GAME_SIZE - 1) ∨
  (dir = Direction.Left ∧ hd.x = 0) ∨
  (dir = Direction.Right ∧ hd.x = GAME_SIZE - 1)

instance (hd : GamePoint) (dir : Direction) : Decidable (wallHit hd dir) := by
  unfold wallHit; infer_instance

/-- The snake-body invariant of the spec: non-empty, all segments on the
board, and no two segments equal. -/
def SnakeInv (s : Snake) : Prop :=
  s.body ≠ [] ∧ (∀ p ∈ s.body, p.inBounds) ∧ s.body.Nodup

theorem matches_eq_true (p q : GamePoint) : p.matches q = true ↔ p = q := by
  cases p
  cases q
  simp [GamePoint.matches, GamePoint.mk.injEq]

theorem collisions_isEmpty_false (l : List GamePoint) (nh : GamePoint) :
    (l.filter (fun x => x.matches nh)).isEmpty = false ↔ nh ∈ l := by
  rw [List.isEmpty_eq_false, ne_eq, List.filter_eq_nil_iff]
  push_neg
  constructor
  · rintro ⟨x, hx, hm⟩
    rwa [(matches_eq_true x nh).mp hm] at hx
  · intro h
    exact ⟨nh, h, (matches_eq_true nh nh).mpr rfl⟩

theorem movImpl_wall (hd : GamePoint) (rest : List GamePoint) (dir : Direction)
    (food : Food) (nf : GamePoint) (hw : wallHit hd dir) :
    movImpl (hd :: rest) dir food nf = some (⟨hd :: rest, dir⟩, food, none) := by
  rcases hw with ⟨h1, h2⟩ | ⟨h1, h2⟩ | ⟨h1, h2⟩ | ⟨h1, h2⟩ <;>
    subst h1 <;> simp [movImpl, h2]

theorem movImpl_collide (hd : GamePoint) (rest : List GamePoint) (dir : Direction)
    (food : Food) (nf : GamePoint) (hw : ¬ wallHit hd dir)
    (hc : hd.translate dir ∈ hd :: rest) :
    movImpl (hd :: rest) dir food nf = some (⟨hd :: rest, dir⟩, food, none) := by
  simp only [wallHit, not_or] at hw
  obtain ⟨h1, h2, h3, h4⟩ := hw
  simp only [movImpl]
  rw [if_neg h1, if_neg h2, if_neg h3, if_neg h4,
    if_pos ((collisions_isEmpty_false _ _).mpr hc)]

theorem movImpl_ok (hd : GamePoint) (rest : List GamePoint) (dir : Direction)
    (food : Food) (nf : GamePoint) (hw : ¬ wallHit hd dir)
    (hc : hd.translate dir ∉ hd :: rest) :
    movImpl (hd :: rest) dir food nf =
      if hd.translate dir = food.position then
        some (⟨hd.translate dir :: hd :: rest, dir⟩, ⟨nf⟩, some true)
      else
        some (⟨(hd.translate dir :: hd :: rest).dropLast, dir⟩, food, some false) := by
  simp only [wallHit, not_or] at hw
  obtain ⟨h1, h2, h3, h4⟩ := hw
  simp only [movImpl]
  rw [if_neg h1, if_neg h2, if_neg h3, if_neg h4,
    if_neg (fun hfalse => hc ((collisions_isEmpty_false _ _).mp hfalse))]
  by_cases hf : hd.translate dir = food.position
  · rw [if_pos hf,
      if_pos (show isOnFood (hd.translate dir) food = true from (matches_eq_true _ _).mpr hf)]
  · rw [if_neg hf,
      if_neg (show ¬ isOnFood (hd.translate dir) food = true from
        fun htrue => hf ((matches_eq_true _ _).mp htrue))]

theorem movImpl_sig_none (body : List GamePoint) (dir : Direction) (food : Food)
    (nf : GamePoint) (s' : Snake) (f' : Food)
    (h : movImpl body dir food nf = some (s', f', none)) :
    s' = ⟨body, dir⟩ ∧ f' = food := by
  cases body with
  | nil => simp [movImpl] at h
  | cons hd rest =>
    by_cases hw : wallHit hd dir
    · rw [movImpl_wall hd rest dir food nf hw] at h
      simp only [Option.some.injEq, Prod.mk.injEq] at h
      exact ⟨h.1.symm, h.2.1.symm⟩
    · by_cases hmem : hd.translate dir ∈ hd :: rest
      · rw [movImpl_collide hd rest dir food nf hw hmem] at h
        simp only [Option.some.injEq, Prod.mk.injEq] at h
        exact ⟨h.1.symm, h.2.1.symm⟩
      · rw [movImpl_ok hd rest dir food nf hw hmem] at h
        split at h <;> simp at h

theorem translate_inBounds (hd : GamePoint) (dir : Direction)
    (hb : hd.inBounds) (hw : ¬ wallHit hd dir) :
    (hd.translate dir).inBounds := by
  obtain ⟨hx, hy⟩ := hb
  simp only [wallHit, not_or] at hw
  obtain ⟨h1, h2, h3, h4⟩ := hw
  simp only [GAME_SIZE] at hx hy h2 h4
  cases dir
  case Up =>
    simp only [GamePoint.translate, GamePoint.inBounds, GAME_SIZE]
    omega
  case Down =>
    have hyy : hd.y ≠ 20 - 1 := fun h => h2 ⟨rfl, h⟩
    simp only [GamePoint.translate, GamePoint.inBounds, GAME_SIZE]
    omega
  case Left =>
    simp only [GamePoint.translate, GamePoint.inBounds, GAME_SIZE]
    omega
  case Right =>
    have hxx : hd.x ≠ 20 - 1 := fun h => h4 ⟨rfl, h⟩
    simp only [GamePoint.translate, GamePoint.inBounds, GAME_SIZE]
    omega

theorem translate_agrees_translateZ (hd : GamePoint) (dir : Direction)
    (hw : ¬ wallHit hd dir) :
    (((hd.translate dir).x : ℤ), ((hd.translate dir).y : ℤ)) = translateZ hd dir := by
  simp only [wallHit, not_or] at hw
  obtain ⟨h1, h2, h3, h4⟩ := hw
  cases dir
  case Up =>
    have hyy : hd.y ≠ 0 := fun h => h1 ⟨rfl, h⟩
    simp only [GamePoint.translate, translateZ, Prod.mk.injEq]
    constructor <;> first | trivial | omega
  case Down =>
    simp only [GamePoint.translate, translateZ, Prod.mk.injEq]
    exact ⟨trivial, by omega⟩
  case Left =>
    have hxx : hd.x ≠ 0 := fun h => h3 ⟨rfl, h⟩
    simp only [GamePoint.translate, translateZ, Prod.mk.injEq]
    constructor <;> first | trivial | omega
  case Right =>
    simp only [GamePoint.translate, translateZ, Prod.mk.injEq]
    exact ⟨by omega, trivial⟩

theorem movImpl_preserves_inv (s : Snake) (food : Food) (nf : GamePoint)
    (s' : Snake) (f' : Food) (eaten : Bool) (hinv : SnakeInv s)
    (h : s.mov food nf = some (s', f', some eaten)) : SnakeInv s' := by
  obtain ⟨hne, hbounds, hnodup⟩ := hinv
  obtain ⟨hd, rest, hbody⟩ : ∃ hd rest, s.body = hd :: rest := by
    cases hcase : s.body with
    | nil => exact absurd hcase hne
    | cons a t => exact ⟨a, t, rfl⟩
  rw [Snake.mov, hbody] at h
  by_cases hw : wallHit hd s.direction
  · rw [movImpl_wall _ _ _ _ _ hw] at h
    simp at h
  · by_cases hmem : hd.translate s.direction ∈ hd :: rest
    · rw [movImpl_collide _ _ _ _ _ hw hmem] at h
      simp at h
    · rw [movImpl_ok _ _ _ _ _ hw hmem] at h
      have hnb : (hd.translate s.direction).inBounds :=
        translate_inBounds hd s.direction
          (hbounds hd (by rw [hbody]; exact List.mem_cons_self hd rest)) hw
      rw [hbody] at hbounds hnodup
      by_cases hf : hd.translate s.direction = food.position
      · rw [if_pos hf] at h
        simp only [Option.some.injEq, Prod.mk.injEq] at h
        rw [← h.1]
        refine ⟨by simp, ?_, ?_⟩
        · intro p hp
          rcases List.mem_cons.mp hp with rfl | hp'
          · exact hnb
          · exact hbounds p hp'
        · exact List.nodup_cons.mpr ⟨hmem, hnodup⟩
      · rw [if_neg hf] at h
        simp only [Option.some.injEq, Prod.mk.injEq] at h
        rw [← h.1]
        refine ⟨?_, ?_, ?_⟩
        · intro hnil
          have hnil' : (hd.translate s.direction :: hd :: rest).dropLast = [] := hnil
          have hlen := congrArg List.length hnil'
          simp [List.length_dropLast] at hlen
        · intro p hp
          have hp' : p ∈ hd.translate s.direction :: hd :: rest :=
            (List.dropLast_sublist _).subset hp
          rcases List.mem_cons.mp hp' with rfl | hp''
          · exact hnb
          · exact hbounds p hp''
        · exact List.Nodup.sublist (List.dropLast_sublist _)
            (List.nodup_cons.mpr ⟨hmem, hnodup⟩)

theorem run_loop_cases (g : GameState) (elapsed : ℚ) (inp : Inputs) (nf : GamePoint)
    (r : LoopResult) (h : run_loop g elapsed inp nf = some r) :
    (¬ elapsed > g.period ∧ r = ⟨applyInput g inp, false⟩) ∨
    (elapsed > g.period ∧ ∃ snake1 food1,
      (g.snake.mov g.food nf = some (snake1, food1, none) ∧
        r = ⟨{ g with snake := snake1, food := food1, finished := true }, true⟩) ∨
      (∃ eaten, g.snake.mov g.food nf = some (snake1, food1, some eaten) ∧
        r = ⟨applyInput ({ g with snake := snake1, food := food1, period := if eaten = true then g.period * PERIOD_CHANGE else g.period }) inp, true⟩)) := by
  unfold run_loop at h
  by_cases ht : elapsed > g.period
  · rw [if_pos ht] at h
    split at h
    · simp at h
    · rename_i snake1 food1 heq
      simp only [Option.some.injEq] at h
      exact Or.inr ⟨ht, snake1, food1, Or.inl ⟨heq, h.symm⟩⟩
    · rename_i snake1 food1 eaten heq
      simp only [Option.some.injEq] at h
      exact Or.inr ⟨ht, snake1, food1, Or.inr ⟨eaten, heq, h.symm⟩⟩
  · rw [if_neg ht] at h
    simp only [Option.some.injEq] at h
    exact Or.inl ⟨ht, h.symm⟩

theorem frame_cases (g : GameState) (elapsed : ℚ) (inp : Inputs) (nf : GamePoint)
    (g' : GameState) (out : FrameOutput)
    (h : frame g elapsed inp nf = some (g', out)) :
    (g.finished = true ∧ g' = g) ∨
    (g.finished = false ∧ ∃ r, run_loop g elapsed inp nf = some r ∧ g' = r.state) := by
  unfold frame at h
  by_cases hfin : g.finished = true
  · rw [if_pos hfin] at h
    simp only [Option.some.injEq, Prod.mk.injEq] at h
    exact Or.inl ⟨hfin, h.1.symm⟩
  · rw [if_neg hfin] at h
    split at h
    · simp at h
    · rename_i r heq
      have hg' : g' = r.state := by
        split at h <;>
          (simp only [Option.some.injEq, Prod.mk.injEq] at h; exact h.1.symm)
      exact Or.inr ⟨by revert hfin; cases g.finished <;> simp, r, heq, hg'⟩

theorem run_loop_preserves_inv (g : GameState) (elapsed : ℚ) (inp : Inputs)
    (nf : GamePoint) (r : LoopResult) (hinv : SnakeInv g.snake)
    (h : run_loop g elapsed inp nf = some r) : SnakeInv r.state.snake := by
  rcases run_loop_cases g elapsed inp nf r h with ⟨ht, rfl⟩ | ⟨ht, snake1, food1, hcase⟩
  · exact ⟨hinv.1, hinv.2.1, hinv.2.2⟩
  · rcases hcase with ⟨hmov, rfl⟩ | ⟨eaten, hmov, rfl⟩
    · obtain ⟨h1, h2⟩ :=
        movImpl_sig_none g.snake.body g.snake.direction g.food nf snake1 food1 hmov
      show SnakeInv snake1
      rw [h1]
      exact hinv
    · have hs1 := movImpl_preserves_inv g.snake g.food nf snake1 food1 eaten hinv hmov
      exact ⟨hs1.1, hs1.2.1, hs1.2.2⟩

theorem frame_preserves_inv (g : GameState) (elapsed : ℚ) (inp : Inputs)
    (nf : GamePoint) (g' : GameState) (out : FrameOutput) (hinv : SnakeInv g.snake)
    (h : frame g elapsed inp nf = some (g', out)) : SnakeInv g'.snake := by
  rcases frame_cases g elapsed inp nf g' out h with ⟨-, rfl⟩ | ⟨-, r, hrl, rfl⟩
  · exact hinv
  · exact run_loop_preserves_inv g elapsed inp nf r hinv hrl

theorem frame_period_cases (g : GameState) (elapsed : ℚ) (inp : Inputs)
    (nf : GamePoint) (g' : GameState) (out : FrameOutput)
    (h : frame g elapsed inp nf = some (g', out)) :
    g'.period = g.period ∨ g'.period = g.period * PERIOD_CHANGE := by
  rcases frame_cases g elapsed inp nf g' out h with ⟨-, rfl⟩ | ⟨-, r, hrl, rfl⟩
  · exact Or.inl rfl
  · rcases run_loop_cases g elapsed inp nf r hrl with ⟨-, rfl⟩ | ⟨-, snake1, food1, hcase⟩
    · exact Or.inl rfl
    · rcases hcase with ⟨-, rfl⟩ | ⟨eaten, -, rfl⟩
      · exact Or.inl rfl
      · show (if eaten = true then g.period * PERIOD_CHANGE else g.period) = g.period ∨
          (if eaten = true then g.period * PERIOD_CHANGE else g.period) =
            g.period * PERIOD_CHANGE
        cases eaten
        · exact Or.inl (by simp)
        · exact Or.inr (by simp)

theorem reachable_period_pos (g : GameState) (h : Reachable g) : 0 < g.period := by
  induction h with
  | init p f hp hf =>
    show (0 : ℚ) < INITIAL_PERIOD
    rw [INITIAL_PERIOD]
    norm_num
  | step g elapsed inp nf hnf g' out hg hfr ih =>
    rcases frame_period_cases g elapsed inp nf g' out hfr with he | he
    · rw [he]; exact ih
    · rw [he, PERIOD_CHANGE]
      positivity

/-- C1: for a snake whose head move stays in bounds (none of the four wall
guards fires), `Snake::mov` reports self-collision — returning the terminal
`None` signal with snake and food untouched — if and only if the candidate
head (the current head translated one cell in the current heading) equals
some segment of the PRE-move body, including the current head and the tail
segment. -/
theorem snake_mov_self_collision_iff (s : Snake) (food : Food) (nf : GamePoint)
    (hd : GamePoint) (rest : List GamePoint) (hbody : s.body = hd :: rest)
    (hwall : ¬ wallHit hd s.direction) :
    s.mov food nf = some (s, food, none) ↔ hd.translate s.direction ∈ s.body := by
  constructor
  · intro h
    by_contra hmem
    rw [hbody] at hmem
    rw [Snake.mov, hbody, movImpl_ok hd rest s.direction food nf hwall hmem] at h
    split at h <;> simp at h
  · intro hmem
    rw [hbody] at hmem
    rw [Snake.mov, hbody, movImpl_collide hd rest s.direction food nf hwall hmem,
      ← hbody]

theorem snake_mov_self_collision_iff_witness :
    (Snake.mk [⟨5, 5⟩, ⟨5, 4⟩] Direction.Up).mov ⟨⟨1, 1⟩⟩ ⟨2, 2⟩ =
      some (Snake.mk [⟨5, 5⟩, ⟨5, 4⟩] Direction.Up, ⟨⟨1, 1⟩⟩, none) :=
  (snake_mov_self_collision_iff (Snake.mk [⟨5, 5⟩, ⟨5, 4⟩] Direction.Up) ⟨⟨1, 1⟩⟩
    ⟨2, 2⟩ ⟨5, 5⟩ [⟨5, 4⟩] rfl (by decide)).mpr (by decide)

/-- C2: a tick on a body of length L that neither hits a wall nor itself
(signal `Some eaten`) yields length L+1 exactly when the candidate head
equals the food position (tail kept), and length L otherwise (tail removed);
no other length is possible. -/
theorem snake_mov_length (s : Snake) (food : Food) (nf : GamePoint)
    (hd : GamePoint) (rest : List GamePoint) (hbody : s.body = hd :: rest)
    (s' : Snake) (f' : Food) (eaten : Bool)
    (h : s.mov food nf = some (s', f', some eaten)) :
    s'.body.length =
      if hd.translate s.direction = food.position
      then s.body.length + 1 else s.body.length := by
  rw [Snake.mov, hbody] at h
  by_cases hw : wallHit hd s.direction
  · rw [movImpl_wall _ _ _ _ _ hw] at h
    simp at h
  · by_cases hmem : hd.translate s.direction ∈ hd :: rest
    · rw [movImpl_collide _ _ _ _ _ hw hmem] at h
      simp at h
    · rw [movImpl_ok _ _ _ _ _ hw hmem] at h
      by_cases hf : hd.translate s.direction = food.position
      · rw [if_pos hf] at h ⊢
        simp only [Option.some.injEq, Prod.mk.injEq] at h
        rw [← h.1, hbody]
        simp
      · rw [if_neg hf] at h
        rw [if_neg hf]
        simp only [Option.some.injEq, Prod.mk.injEq] at h
        rw [← h.1, hbody]
        simp [List.length_dropLast]

theorem snake_mov_length_witness :
    (Snake.mk [⟨10, 9⟩] Direction.Up).body.length =
      if (GamePoint.mk 10 10).translate Direction.Up = (Food.mk ⟨0, 0⟩).position
      then (Snake.mk [⟨10, 10⟩] Direction.Up).body.length + 1
      else (Snake.mk [⟨10, 10⟩] Direction.Up).body.length :=
  snake_mov_length (Snake.mk [⟨10, 10⟩] Direction.Up) ⟨⟨0, 0⟩⟩ ⟨7, 7⟩ ⟨10, 10⟩ []
    rfl (Snake.mk [⟨10, 9⟩] Direction.Up) ⟨⟨0, 0⟩⟩ false (by decide)

/-- C3: with the head on the boundary facing out (Up at row 0, Down at the
last row, Left at column 0, Right at the last column) the tick returns the
terminal `None` signal with snake and food untouched, before any coordinate
arithmetic; and whenever no wall guard fires, the `Nat`-subtraction
translation agrees with exact integer arithmetic, so the head translation
never underflows and the embedded tick is total. -/
theorem snake_mov_wall_guard_total (s : Snake) (food : Food) (nf : GamePoint)
    (hd : GamePoint) (rest : List GamePoint) (hbody : s.body = hd :: rest) :
    (wallHit hd s.direction → s.mov food nf = some (s, food, none)) ∧
    (¬ wallHit hd s.direction →
      (((hd.translate s.direction).x : ℤ), ((hd.translate s.direction).y : ℤ)) =
        translateZ hd s.direction) := by
  constructor
  · intro hw
    rw [Snake.mov, hbody, movImpl_wall _ _ _ _ _ hw, ← hbody]
  · intro hw
    exact translate_agrees_translateZ hd s.direction hw

theorem snake_mov_wall_guard_total_witness :
    (Snake.mk [⟨3, 0⟩] Direction.Up).mov ⟨⟨1, 1⟩⟩ ⟨2, 2⟩ =
      some (Snake.mk [⟨3, 0⟩] Direction.Up, ⟨⟨1, 1⟩⟩, none) :=
  (snake_mov_wall_guard_total (Snake.mk [⟨3, 0⟩] Direction.Up) ⟨⟨1, 1⟩⟩ ⟨2, 2⟩
    ⟨3, 0⟩ [] rfl).1 (by decide)

/-- C5: the per-frame input chain sets the heading to the first held
direction in the fixed precedence order Down, Up, Left, Right that is not
the exact opposite of the current heading, and leaves the heading unchanged
otherwise; holding only Down with heading Up is a no-op, and the result is
always either the old heading or one held direction (at most one change per
frame). -/
theorem input_precedence_spec (inp : Inputs) (dir : Direction) :
    inputStep inp dir = inputSpec inp dir ∧
    inputStep ⟨true, false, false, false⟩ Direction.Up = Direction.Up ∧
    (inputStep inp dir = dir ∨ held inp (inputStep inp dir) = true) := by
  obtain ⟨d, u, l, r⟩ := inp
  cases d <;> cases u <;> cases l <;> cases r <;> cases dir <;>
    exact ⟨by decide, by decide, by decide⟩

/-- C4: the initial one-segment game state satisfies the snake-body
invariant (non-empty, all segments with both coordinates in
`[0, GAME_SIZE)`, no two segments equal), and the invariant is preserved by
every whole frame — input processing and ticks that move, grow, or
terminate — so it holds in every reachable game state, and in particular no
tick from a reachable state ever produces an out-of-bounds coordinate. -/
theorem reachable_snake_invariant (g : GameState) (h : Reachable g) :
    SnakeInv g.snake := by
  induction h with
  | init p f hp hf =>
    refine ⟨by simp [initState], ?_, by simp [initState]⟩
    intro q hq
    have hqp : q = p := by simpa [initState] using hq
    rw [hqp]
    exact hp
  | step g elapsed inp nf hnf g' out hg hfr ih =>
    exact frame_preserves_inv g elapsed inp nf g' out ih hfr

theorem reachable_snake_invariant_witness :
    SnakeInv (initState ⟨1, 1⟩ ⟨2, 2⟩).snake :=
  reachable_snake_invariant (initState ⟨1, 1⟩ ⟨2, 2⟩)
    (Reachable.init ⟨1, 1⟩ ⟨2, 2⟩ (by decide) (by decide))

/-- C10: a tick that reports collision (the terminal `None` signal, from
either the wall check or the self-collision check) returns the snake body,
heading and food exactly as they were, and the driver then changes nothing
but the `finished` flag — body, heading, food position and tick period are
all exactly their pre-tick values. -/
theorem collision_tick_leaves_state_unchanged :
    (∀ (s : Snake) (food : Food) (nf : GamePoint) (s' : Snake) (f' : Food),
      s.mov food nf = some (s', f', none) → s' = s ∧ f' = food) ∧
    (∀ (g : GameState) (elapsed : ℚ) (inp : Inputs) (nf : GamePoint)
      (snake1 : Snake) (food1 : Food), elapsed > g.period →
      g.snake.mov g.food nf = some (snake1, food1, none) →
      run_loop g elapsed inp nf = some ⟨{ g with finished := true }, true⟩) := by
  constructor
  · intro s food nf s' f' h
    obtain ⟨h1, h2⟩ := movImpl_sig_none s.body s.direction food nf s' f' h
    exact ⟨h1.trans rfl, h2⟩
  · intro g elapsed inp nf snake1 food1 ht hmov
    obtain ⟨h1, h2⟩ :=
      movImpl_sig_none g.snake.body g.snake.direction g.food nf snake1 food1 hmov
    have hs : snake1 = g.snake := h1.trans rfl
    subst hs
    subst h2
    unfold run_loop
    rw [if_pos ht, hmov]

theorem collision_tick_leaves_state_unchanged_witness :
    run_loop ⟨⟨[⟨3, 0⟩], Direction.Up⟩, ⟨⟨1, 1⟩⟩, 300, false⟩ 301
        ⟨false, false, false, false⟩ ⟨2, 2⟩ =
      some ⟨⟨⟨[⟨3, 0⟩], Direction.Up⟩, ⟨⟨1, 1⟩⟩, 300, true⟩, true⟩ :=
  collision_tick_leaves_state_unchanged.2 ⟨⟨[⟨3, 0⟩], Direction.Up⟩, ⟨⟨1, 1⟩⟩, 300, false⟩
    301 ⟨false, false, false, false⟩ ⟨2, 2⟩ ⟨[⟨3, 0⟩], Direction.Up⟩ ⟨⟨1, 1⟩⟩
    (by norm_num) (by decide)

/-- C7: once the `finished` flag is set, a whole frame of `main` returns the
game state completely unchanged — the flag stays set, the snake body,
heading, food and period are untouched and no input is processed — and only
the GAME OVER screen is drawn, with score equal to the snake's body length
at collision time. -/
theorem finished_frame_frozen (g : GameState) (elapsed : ℚ) (inp : Inputs)
    (nf : GamePoint) (h : g.finished = true) :
    frame g elapsed inp nf =
      some (g, FrameOutput.gameOverScreen g.snake.body.length) := by
  unfold frame
  rw [if_pos h]

theorem finished_frame_frozen_witness :
    frame ⟨⟨[⟨4, 4⟩], Direction.Left⟩, ⟨⟨2, 2⟩⟩, 285, true⟩ 500
        ⟨true, true, true, true⟩ ⟨9, 9⟩ =
      some (⟨⟨[⟨4, 4⟩], Direction.Left⟩, ⟨⟨2, 2⟩⟩, 285, true⟩,
        FrameOutput.gameOverScreen 1) :=
  finished_frame_frozen ⟨⟨[⟨4, 4⟩], Direction.Left⟩, ⟨⟨2, 2⟩⟩, 285, true⟩ 500
    ⟨true, true, true, true⟩ ⟨9, 9⟩ rfl

/-- C6: a tick returning `grew` sets the food to the freshly drawn random
point (exactly one relocation) and the driver multiplies the period exactly
once by the shrink factor 0.95; a tick returning `moved` leaves both the
food and the period unchanged; and across any frame from a reachable state
the period never increases. -/
theorem grew_tick_relocates_and_shrinks :
    (∀ (s : Snake) (food : Food) (nf : GamePoint) (s' : Snake) (f' : Food) (eaten : Bool),
      s.mov food nf = some (s', f', some eaten) →
        (eaten = true → f' = ⟨nf⟩) ∧ (eaten = false → f' = food)) ∧
    (∀ (g : GameState) (elapsed : ℚ) (inp : Inputs) (nf : GamePoint) (r : LoopResult)
      (snake1 : Snake) (food1 : Food) (eaten : Bool),
      run_loop g elapsed inp nf = some r → elapsed > g.period →
      g.snake.mov g.food nf = some (snake1, food1, some eaten) →
        r.state.food = food1 ∧
        r.state.period = (if eaten = true then g.period * PERIOD_CHANGE else g.period)) ∧
    (∀ (g : GameState) (elapsed : ℚ) (inp : Inputs) (nf : GamePoint)
      (g' : GameState) (out : FrameOutput),
      Reachable g → frame g elapsed inp nf = some (g', out) →
        g'.period ≤ g.period) := by
  refine ⟨?_, ?_, ?_⟩
  · intro s food nf s' f' eaten h
    obtain ⟨hd, rest, hbody⟩ : ∃ hd rest, s.body = hd :: rest := by
      cases hcase : s.body with
      | nil => rw [Snake.mov, hcase] at h; simp [movImpl] at h
      | cons a t => exact ⟨a, t, rfl⟩
    rw [Snake.mov, hbody] at h
    by_cases hw : wallHit hd s.direction
    · rw [movImpl_wall _ _ _ _ _ hw] at h
      simp at h
    · by_cases hmem : hd.translate s.direction ∈ hd :: rest
      · rw [movImpl_collide _ _ _ _ _ hw hmem] at h
        simp at h
      · rw [movImpl_ok _ _ _ _ _ hw hmem] at h
        split at h <;> simp only [Option.some.injEq, Prod.mk.injEq] at h
        · refine ⟨fun _ => h.2.1.symm, fun hfalse => ?_⟩
          rw [← h.2.2] at hfalse
          simp at hfalse
        · refine ⟨fun htrue => ?_, fun _ => h.2.1.symm⟩
          rw [← h.2.2] at htrue
          simp at htrue
  · intro g elapsed inp nf r snake1 food1 eaten hrun ht hmov
    rcases run_loop_cases g elapsed inp nf r hrun with ⟨hnt, -⟩ | ⟨-, s1, f1, hcase⟩
    · exact absurd ht hnt
    · rcases hcase with ⟨hmov', rfl⟩ | ⟨eaten', hmov', rfl⟩
      · rw [hmov] at hmov'
        simp at hmov'
      · rw [hmov] at hmov'
        simp only [Option.some.injEq, Prod.mk.injEq] at hmov'
        obtain ⟨hs, hf, he⟩ := hmov'
        subst hs
        subst hf
        subst he
        exact ⟨rfl, rfl⟩
  · intro g elapsed inp nf g' out hreach hfr
    rcases frame_period_cases g elapsed inp nf g' out hfr with he | he
    · exact he.le
    · rw [he]
      exact mul_le_of_le_one_right (reachable_period_pos g hreach).le
        (by norm_num [PERIOD_CHANGE])

theorem grew_tick_relocates_and_shrinks_witness :
    (true = true → (⟨⟨7, 7⟩⟩ : Food) = ⟨⟨7, 7⟩⟩) ∧
    (true = false → (⟨⟨7, 7⟩⟩ : Food) = ⟨⟨5, 4⟩⟩) :=
  grew_tick_relocates_and_shrinks.1 (Snake.mk [⟨5, 5⟩] Direction.Up) ⟨⟨5, 4⟩⟩
    ⟨7, 7⟩ (Snake.mk [⟨5, 4⟩, ⟨5, 5⟩] Direction.Up) ⟨⟨7, 7⟩⟩ true (by decide)

/-- C8 counterexample: with the elapsed time exactly EQUAL to the period
(300 = 300, so "elapsed ≥ period" holds), the loop performs NO tick — the
clock is not reset (`timeReset = false`) and the state is returned
unchanged — because the code tests the strict `state.time.elapsed() >
state.period`, refuting "tick exactly when elapsed ≥ period". -/
theorem tick_at_equal_elapsed_counterexample :
    (300 : ℚ) ≥ (GameState.mk ⟨[⟨10, 10⟩], Direction.Up⟩ ⟨⟨0, 0⟩⟩ 300 false).period ∧
    run_loop (GameState.mk ⟨[⟨10, 10⟩], Direction.Up⟩ ⟨⟨0, 0⟩⟩ 300 false) 300
        ⟨false, false, false, false⟩ ⟨0, 0⟩ =
      some ⟨GameState.mk ⟨[⟨10, 10⟩], Direction.Up⟩ ⟨⟨0, 0⟩⟩ 300 false, false⟩ := by
  constructor
  · norm_num
  · decide

/-- C8 (amended): a snake tick is performed, with the elapsed-time reference
reset to now, exactly when the elapsed time since the last tick STRICTLY
exceeds the current period; when elapsed ≤ period (equality included) no
tick is performed and the timing step leaves the snake body, the food and
the period unchanged — only the input chain runs. -/
theorem tick_iff_elapsed_gt_period (g : GameState) (elapsed : ℚ) (inp : Inputs)
    (nf : GamePoint) :
    (elapsed ≤ g.period →
      run_loop g elapsed inp nf = some ⟨applyInput g inp, false⟩ ∧
      (applyInput g inp).snake.body = g.snake.body ∧
      (applyInput g inp).food = g.food ∧
      (applyInput g inp).period = g.period) ∧
    (elapsed > g.period → ∀ r, run_loop g elapsed inp nf = some r →
      r.timeReset = true ∧ ∃ m, g.snake.mov g.food nf = some m) := by
  constructor
  · intro hle
    have hnt : ¬ elapsed > g.period := not_lt.mpr hle
    refine ⟨?_, rfl, rfl, rfl⟩
    unfold run_loop
    rw [if_neg hnt]
  · intro ht r hrun
    rcases run_loop_cases g elapsed inp nf r hrun with ⟨hnt, -⟩ | ⟨-, s1, f1, hcase⟩
    · exact absurd ht hnt
    · rcases hcase with ⟨hmov, rfl⟩ | ⟨eaten, hmov, rfl⟩
      · exact ⟨rfl, (s1, f1, none), hmov⟩
      · exact ⟨rfl, (s1, f1, some eaten), hmov⟩

theorem tick_iff_elapsed_gt_period_witness :
    run_loop (GameState.mk ⟨[⟨10, 10⟩], Direction.Up⟩ ⟨⟨0, 0⟩⟩ 300 false) 299
        ⟨false, false, false, false⟩ ⟨0, 0⟩ =
      some ⟨GameState.mk ⟨[⟨10, 10⟩], Direction.Up⟩ ⟨⟨0, 0⟩⟩ 300 false, false⟩ ∧
    [GamePoint.mk 10 10] = [GamePoint.mk 10 10] ∧
    Food.mk ⟨0, 0⟩ = Food.mk ⟨0, 0⟩ ∧
    (300 : ℚ) = 300 :=
  (tick_iff_elapsed_gt_period (GameState.mk ⟨[⟨10, 10⟩], Direction.Up⟩ ⟨⟨0, 0⟩⟩ 300 false)
    299 ⟨false, false, false, false⟩ ⟨0, 0⟩).1 (by norm_num)

/-- C9 counterexample: food at the snake's next head position and the
relocation oracle drawing that very same cell: the tick grows the snake and
"relocates" the food to the SAME position it had before the tick, refuting
"for every outcome of the random relocation, the post-tick food position is
not equal to the pre-tick food position". -/
theorem grew_food_same_counterexample :
    (Snake.mk [⟨5, 5⟩] Direction.Up).mov ⟨⟨5, 4⟩⟩ ⟨5, 4⟩ =
      some (Snake.mk [⟨5, 4⟩, ⟨5, 5⟩] Direction.Up, ⟨⟨5, 4⟩⟩, some true) := by
  decide

/-- C9 (amended): when the food lies exactly at the snake's next head
position (and the move stays in bounds and misses the body), one due tick
increases the body length by 1, multiplies the period by the shrink factor
0.95, and sets the food to the freshly drawn random position — which is
unconstrained and may coincide with the pre-tick food position. -/
theorem grew_tick_outcome (g : GameState) (elapsed : ℚ) (inp : Inputs)
    (nf : GamePoint) (hd : GamePoint) (rest : List GamePoint)
    (hbody : g.snake.body = hd :: rest)
    (hw : ¬ wallHit hd g.snake.direction)
    (hmem : hd.translate g.snake.direction ∉ g.snake.body)
    (hfood : hd.translate g.snake.direction = g.food.position)
    (ht : elapsed > g.period) (r : LoopResult)
    (hrun : run_loop g elapsed inp nf = some r) :
    r.state.snake.body.length = g.snake.body.length + 1 ∧
    r.state.food = ⟨nf⟩ ∧
    r.state.period = g.period * PERIOD_CHANGE := by
  have hmem' : hd.translate g.snake.direction ∉ hd :: rest := by
    rw [← hbody]
    exact hmem
  have hmov : g.snake.mov g.food nf =
      some (⟨hd.translate g.snake.direction :: hd :: rest, g.snake.direction⟩,
        ⟨nf⟩, some true) := by
    rw [Snake.mov, hbody, movImpl_ok hd rest g.snake.direction g.food nf hw hmem',
      if_pos hfood]
  rcases run_loop_cases g elapsed inp nf r hrun with ⟨hnt, -⟩ | ⟨-, s1, f1, hcase⟩
  · exact absurd ht hnt
  · rcases hcase with ⟨hmov', rfl⟩ | ⟨eaten, hmov', rfl⟩
    · rw [hmov] at hmov'
      simp at hmov'
    · rw [hmov] at hmov'
      simp only [Option.some.injEq, Prod.mk.injEq] at hmov'
      obtain ⟨hs, hf, he⟩ := hmov'
      subst hs
      subst hf
      subst he
      refine ⟨?_, rfl, rfl⟩
      show (hd.translate g.snake.direction :: hd :: rest).length =
        g.snake.body.length + 1
      rw [hbody]
      simp

theorem grew_tick_outcome_witness :
    (2 : Nat) = 1 + 1 ∧
    Food.mk ⟨7, 7⟩ = (⟨⟨7, 7⟩⟩ : Food) ∧
    (300 * PERIOD_CHANGE : ℚ) = 300 * PERIOD_CHANGE :=
  grew_tick_outcome ⟨⟨[⟨5, 5⟩], Direction.Up⟩, ⟨⟨5, 4⟩⟩, 300, false⟩ 301
    ⟨false, false, false, false⟩ ⟨7, 7⟩ ⟨5, 5⟩ [] rfl (by decide) (by decide)
    (by decide) (by norm_num)
    ⟨⟨⟨[⟨5, 4⟩, ⟨5, 5⟩], Direction.Up⟩, ⟨⟨7, 7⟩⟩, 300 * PERIOD_CHANGE, false⟩, true⟩ rfl
